import Mathlib

/-!
Shallow embedding of the SkillForge core (skill-progress computation,
activity-skill linkage maintenance, and the onboarding plan sanitizer),
together with proofs checking the specification's claims against it.

JavaScript numbers are modelled as rationals (`ℚ`); entity ids are
rationals as well, since `generateId` returns `Date.now() + Math.random()`,
a non-integral number compared only with strict equality.  Where IEEE-754
special values (Infinity, NaN) are observable — the progress-bar division —
a dedicated `JSNum` type models them explicitly.
-/

/-- Structure `SkillLink` from `src/types/index.ts`: a weighted edge from an activity
to a skill (`skillId` a weak foreign reference, `weight` a real number). -/
structure SkillLink where
  skillId : ℚ
  weight : ℚ
deriving DecidableEq

/-- Structure `Activity` from `src/types/index.ts`. The `type` field (one of
course/book/practice/project/article) and `status` are carried as strings,
matching the string-literal union types of the source. -/
structure Activity where
  id : ℚ
  name : String
  type : String
  status : String
  skills : List SkillLink
deriving DecidableEq

/-- Structure `TimeLog` from `src/types/index.ts`. -/
structure TimeLog where
  id : ℚ
  activityId : ℚ
  date : String
  hours : ℚ
deriving DecidableEq

/-- Structure `Skill` from `src/types/index.ts`.  `targetLevel` and `priority` are
numbers at runtime; the sanitizer clamps them but the type system of the
source does not. -/
structure Skill where
  id : ℚ
  name : String
  targetLevel : ℚ
  priority : ℚ
deriving DecidableEq

/-- Structure `AppState` from `src/types/index.ts`: the aggregate root. -/
structure AppState where
  skills : List Skill
  activities : List Activity
  timeLogs : List TimeLog
deriving DecidableEq

/-- Constant `LEVEL_THRESHOLDS` from the utils module: `[0, 1, 11, 41, 101, 251]`. -/
def LEVEL_THRESHOLDS : List ℚ := [0, 1, 11, 41, 101, 251]

/-- The descending loop of `calculateLevel`: for `i` from
`LEVEL_THRESHOLDS.length - 1` down to `0`, return the first `i` with
`weightedHours ≥ LEVEL_THRESHOLDS[i]`.  The argument is the (exclusive)
upper bound of the scan, so `levelScan h (i+1)` inspects index `i` first. -/
def levelScan (weightedHours : ℚ) : ℕ → ℕ
  | 0 => 0
  | i + 1 => if LEVEL_THRESHOLDS.getD i 0 ≤ weightedHours then i else levelScan weightedHours i

/-- Function `calculateLevel` from the utils module: descending scan over
`LEVEL_THRESHOLDS`, defaulting to 0. -/
def calculateLevel (weightedHours : ℚ) : ℕ :=
  levelScan weightedHours LEVEL_THRESHOLDS.length

/-- Function `getActivityHours` from the utils module: filter the logs by
`activityId` and reduce with `+` from 0. -/
def getActivityHours (activityId : ℚ) (timeLogs : List TimeLog) : ℚ :=
  (timeLogs.filter fun log => decide (log.activityId = activityId)).foldl
    (fun sum log => sum + log.hours) 0

/-- Function `getSkillHours` from the utils module: for each activity, look up the
first skill link with the given `skillId` (`Array.prototype.find`); when
present, add that activity's total logged hours times the link's weight to
the running total. -/
def getSkillHours (skillId : ℚ) (activities : List Activity) (timeLogs : List TimeLog) : ℚ :=
  activities.foldl
    (fun total activity =>
      match activity.skills.find? (fun s => decide (s.skillId = skillId)) with
      | some link =>
          total +
            ((timeLogs.filter fun log => decide (log.activityId = activity.id)).foldl
              (fun sum log => sum + log.hours) 0) * link.weight
      | none => total)
    0

/-- Function `deleteSkill` from `src/hooks/useAppState.ts`: drop the skill with the
given id, and filter every activity's skill-link list to remove links to
it.  `timeLogs` is spread through unchanged. -/
def deleteSkill (id : ℚ) (s : AppState) : AppState :=
  { skills := s.skills.filter fun sk => decide (sk.id ≠ id)
    activities := s.activities.map fun a =>
      { a with skills := a.skills.filter fun sl => decide (sl.skillId ≠ id) }
    timeLogs := s.timeLogs }

/-- Function `deleteActivity` from `src/hooks/useAppState.ts`: drop the activity
with the given id and every time log referencing it.  `skills` is spread
through unchanged. -/
def deleteActivity (id : ℚ) (s : AppState) : AppState :=
  { skills := s.skills
    activities := s.activities.filter fun a => decide (a.id ≠ id)
    timeLogs := s.timeLogs.filter fun t => decide (t.activityId ≠ id) }

/-- Function `deleteTimeLog` from `src/hooks/useAppState.ts`: drop the time log with
the given id; `skills` and `activities` are spread through unchanged. -/
def deleteTimeLog (id : ℚ) (s : AppState) : AppState :=
  { skills := s.skills
    activities := s.activities
    timeLogs := s.timeLogs.filter fun t => decide (t.id ≠ id) }

/-- Unfolding the descending scan of `calculateLevel` into a chain of
conditionals, one per threshold (definitional). -/
theorem calculateLevel_eq (x : ℚ) : calculateLevel x =
    if 251 ≤ x then 5 else if 101 ≤ x then 4 else if 41 ≤ x then 3
    else if 11 ≤ x then 2 else if 1 ≤ x then 1 else if 0 ≤ x then 0 else 0 := rfl

/-- C2: `calculateLevel` is the fixed six-threshold step function: level 0
for hours < 1, level 1 on [1, 11), level 2 on [11, 41), level 3 on
[41, 101), level 4 on [101, 251), level 5 for hours ≥ 251; in particular
the six tabulated values 0 ↦ 0, 1 ↦ 1, 10.99 ↦ 1, 11 ↦ 2, 251 ↦ 5,
10000 ↦ 5. -/
theorem calculateLevel_step (h : ℚ) :
    (h < 1 → calculateLevel h = 0) ∧
    (1 ≤ h → h < 11 → calculateLevel h = 1) ∧
    (11 ≤ h → h < 41 → calculateLevel h = 2) ∧
    (41 ≤ h → h < 101 → calculateLevel h = 3) ∧
    (101 ≤ h → h < 251 → calculateLevel h = 4) ∧
    (251 ≤ h → calculateLevel h = 5) ∧
    calculateLevel 0 = 0 ∧ calculateLevel 1 = 1 ∧ calculateLevel (10.99 : ℚ) = 1 ∧
    calculateLevel 11 = 2 ∧ calculateLevel 251 = 5 ∧ calculateLevel 10000 = 5 := by
  refine ⟨fun a => ?_, fun a b => ?_, fun a b => ?_, fun a b => ?_, fun a b => ?_,
    fun a => ?_, ?_, ?_, ?_, ?_, ?_, ?_⟩ <;>
    rw [calculateLevel_eq] <;> split_ifs <;> first | rfl | (exfalso; linarith)

/-- Witness for C2 at h = 5 (second interval). -/
theorem calculateLevel_step_witness : (1 : ℚ) ≤ 5 ∧ (5 : ℚ) < 11 ∧ calculateLevel 5 = 1 :=
  ⟨by norm_num, by norm_num, (calculateLevel_step 5).2.1 (by norm_num) (by norm_num)⟩

/-- C4: `calculateLevel` is monotone non-decreasing, its result lies in
[0, 5] (the lower bound holds because the result is a natural number), and
it is a deterministic pure mapping: equal inputs give equal outputs. -/
theorem calculateLevel_monotone_bounded :
    (∀ h1 h2 : ℚ, h1 ≤ h2 → calculateLevel h1 ≤ calculateLevel h2) ∧
    (∀ h : ℚ, calculateLevel h ≤ 5) ∧
    (∀ h h' : ℚ, h = h' → calculateLevel h = calculateLevel h') := by
  refine ⟨fun h1 h2 hle => ?_, fun h => ?_, fun h h' he => by rw [he]⟩ <;>
    rw [calculateLevel_eq] <;> try rw [calculateLevel_eq]
  · split_ifs <;> first | omega | linarith
  · split_ifs <;> omega

/-- Witness for C4 at (0, 1). -/
theorem calculateLevel_monotone_bounded_witness :
    (0 : ℚ) ≤ 1 ∧ calculateLevel 0 ≤ calculateLevel 1 :=
  ⟨by norm_num, calculateLevel_monotone_bounded.1 0 1 (by norm_num)⟩

/-- C10: for every strictly negative input the descending scan matches no
threshold (the lowest is 0) and `calculateLevel` falls through to its
default branch, returning 0. -/
theorem calculateLevel_negative (h : ℚ) (hneg : h < 0) : calculateLevel h = 0 := by
  rw [calculateLevel_eq]; split_ifs <;> first | rfl | (exfalso; linarith)

/-- Witness for C10 at h = -1. -/
theorem calculateLevel_negative_witness : (-1 : ℚ) < 0 ∧ calculateLevel (-1) = 0 :=
  ⟨by norm_num, calculateLevel_negative (-1) (by norm_num)⟩

/-- A concrete application state used to instantiate the universally
quantified theorems: one skill, one activity linked to it, one time log
on that activity. -/
def exState : AppState :=
  { skills := [⟨1, "Python", 3, 1⟩]
    activities := [⟨2, "Course", "course", "planned", [⟨1, 1⟩]⟩]
    timeLogs := [⟨3, 2, "2024-01-01", 4⟩] }

/-- The body of `getSkillHours`'s loop as a standalone per-activity
contribution: zero when the activity has no link to the skill, otherwise
its total logged hours times the weight of the first matching link. -/
def skillContrib (skillId : ℚ) (timeLogs : List TimeLog) (a : Activity) : ℚ :=
  match a.skills.find? (fun s => decide (s.skillId = skillId)) with
  | some link =>
      ((timeLogs.filter fun log => decide (log.activityId = a.id)).foldl
        (fun sum log => sum + log.hours) 0) * link.weight
  | none => 0

theorem foldl_hours_eq (logs : List TimeLog) (init : ℚ) :
    logs.foldl (fun sum log => sum + log.hours) init = init + (logs.map TimeLog.hours).sum := by
  induction logs generalizing init with
  | nil => simp
  | cons a as ih => simp [List.foldl, ih]; ring

theorem getSkillHours_aux (skillId : ℚ) (logs : List TimeLog) :
    ∀ (acts : List Activity) (init : ℚ),
      acts.foldl
        (fun total activity =>
          match activity.skills.find? (fun s => decide (s.skillId = skillId)) with
          | some link =>
              total +
                ((logs.filter fun log => decide (log.activityId = activity.id)).foldl
                  (fun sum log => sum + log.hours) 0) * link.weight
          | none => total)
        init = init + (acts.map (skillContrib skillId logs)).sum := by
  intro acts
  induction acts with
  | nil => intro init; simp
  | cons a as ih =>
    intro init
    rw [List.foldl_cons, ih, List.map_cons, List.sum_cons]
    cases hfind : a.skills.find? (fun s => decide (s.skillId = skillId)) with
    | none => simp [skillContrib, hfind]
    | some link => simp [skillContrib, hfind]; ring

/-- Lemma: `getSkillHours` is the sum of the per-activity contributions. -/
theorem getSkillHours_eq_sum (skillId : ℚ) (acts : List Activity) (logs : List TimeLog) :
    getSkillHours skillId acts logs = (acts.map (skillContrib skillId logs)).sum := by
  rw [getSkillHours, getSkillHours_aux]; ring

/-- When a predicate holds of at most one element of a list, using the
first match (`find?`) agrees with summing over all matches (`filter`). -/
theorem find_vs_filter (p : SkillLink → Bool) (f : SkillLink → ℚ) (xs : List SkillLink)
    (h : (xs.filter p).length ≤ 1) :
    (match xs.find? p with | some l => f l | none => 0) = ((xs.filter p).map f).sum := by
  induction xs with
  | nil => simp
  | cons x xs ih =>
    by_cases hp : p x = true
    · rw [List.find?_cons_of_pos _ hp, List.filter_cons_of_pos hp]
      rw [List.filter_cons_of_pos hp] at h
      have hlen : (xs.filter p).length = 0 := by rw [List.length_cons] at h; omega
      have hnil : xs.filter p = [] := List.length_eq_zero.mp hlen
      simp [hnil]
    · rw [List.find?_cons_of_neg _ (by simpa using hp), List.filter_cons_of_neg (by simpa using hp)]
      rw [List.filter_cons_of_neg (by simpa using hp)] at h
      exact ih h

theorem skillContrib_eq (skillId : ℚ) (logs : List TimeLog) (a : Activity)
    (h : (a.skills.filter fun l => decide (l.skillId = skillId)).length ≤ 1) :
    skillContrib skillId logs a =
      ((a.skills.filter fun l => decide (l.skillId = skillId)).map fun l =>
        ((logs.filter fun lg => decide (lg.activityId = a.id)).map TimeLog.hours).sum *
          l.weight).sum := by
  rw [skillContrib]
  simp only [foldl_hours_eq, zero_add]
  exact find_vs_filter _ _ _ h

theorem skillContrib_none (skillId : ℚ) (logs : List TimeLog) (a : Activity)
    (h : ∀ l ∈ a.skills, l.skillId ≠ skillId) : skillContrib skillId logs a = 0 := by
  have hfind : a.skills.find? (fun s => decide (s.skillId = skillId)) = none :=
    List.find?_eq_none.mpr fun x hx => by simpa using h x hx
  simp [skillContrib, hfind]

theorem skillContrib_nil_logs (skillId : ℚ) (a : Activity) :
    skillContrib skillId [] a = 0 := by
  cases hfind : a.skills.find? (fun s => decide (s.skillId = skillId)) <;>
    simp [skillContrib, hfind]

/-- C1: when no activity carries two links to the same skill (the shape
the UI forms construct), `getSkillHours` is the sum, over every activity
with a `SkillLink` to `skillId`, of that activity's total logged hours
times the link's weight; it is 0 when no activity links the skill and when
no logs exist; and the same logs fan out to every linked skill: an
activity linked to skills 10 (weight 0.5) and 20 (weight 1) with 4 logged
hours contributes 2 to skill 10 and 4 to skill 20. -/
theorem getSkillHours_weighted_sum (skillId : ℚ) (activities : List Activity)
    (timeLogs : List TimeLog)
    (huniq : ∀ a ∈ activities,
      (a.skills.filter fun l => decide (l.skillId = skillId)).length ≤ 1) :
    getSkillHours skillId activities timeLogs =
      (activities.map fun a =>
        ((a.skills.filter fun l => decide (l.skillId = skillId)).map fun l =>
          ((timeLogs.filter fun lg => decide (lg.activityId = a.id)).map TimeLog.hours).sum *
            l.weight).sum).sum ∧
    ((∀ a ∈ activities, ∀ l ∈ a.skills, l.skillId ≠ skillId) →
      getSkillHours skillId activities timeLogs = 0) ∧
    getSkillHours skillId activities [] = 0 ∧
    getSkillHours 10 [⟨1, "X", "course", "planned", [⟨10, 1 / 2⟩, ⟨20, 1⟩]⟩]
      [⟨100, 1, "d", 4⟩] = 2 ∧
    getSkillHours 20 [⟨1, "X", "course", "planned", [⟨10, 1 / 2⟩, ⟨20, 1⟩]⟩]
      [⟨100, 1, "d", 4⟩] = 4 := by
  refine ⟨?_, ?_, ?_, ?_, ?_⟩
  · rw [getSkillHours_eq_sum]
    exact congrArg List.sum
      (List.map_congr_left fun a ha => skillContrib_eq skillId timeLogs a (huniq a ha))
  · intro hnone
    rw [getSkillHours_eq_sum]
    refine List.sum_eq_zero fun x hx => ?_
    obtain ⟨a, ha, rfl⟩ := List.mem_map.mp hx
    exact skillContrib_none skillId timeLogs a (hnone a ha)
  · rw [getSkillHours_eq_sum]
    refine List.sum_eq_zero fun x hx => ?_
    obtain ⟨a, ha, rfl⟩ := List.mem_map.mp hx
    exact skillContrib_nil_logs skillId a
  · norm_num [getSkillHours, List.find?, List.filter, List.foldl]
  · norm_num [getSkillHours, List.find?, List.filter, List.foldl]

/-- Witness for C1 on `exState` (whose single activity has a single,
hence duplicate-free, link list). -/
theorem getSkillHours_weighted_sum_witness :
    (∀ a ∈ exState.activities,
      (a.skills.filter fun l => decide (l.skillId = (1 : ℚ))).length ≤ 1) ∧
    getSkillHours 1 exState.activities [] = 0 :=
  ⟨by decide,
    (getSkillHours_weighted_sum 1 exState.activities exState.timeLogs (by decide)).2.2.1⟩

/-- C7, counterexample: with two links to skill 10 (weights 0.5 and 1.0)
on one activity and 4 logged hours, the claim predicts 4·0.5 + 4·1 = 6 by
summing both links; the code's `find` uses only the first link and
returns 2. -/
theorem getSkillHours_duplicate_counterexample :
    getSkillHours 10 [⟨1, "X", "course", "planned", [⟨10, 1 / 2⟩, ⟨10, 1⟩]⟩]
      [⟨100, 1, "d", 4⟩] = 2 ∧
    ¬ getSkillHours 10 [⟨1, "X", "course", "planned", [⟨10, 1 / 2⟩, ⟨10, 1⟩]⟩]
      [⟨100, 1, "d", 4⟩] = 4 * (1 / 2) + 4 * 1 := by
  constructor <;> norm_num [getSkillHours, List.find?, List.filter, List.foldl]

/-- C7 as amended: duplicate links are tolerated gracefully but only the
first link with the given `skillId` counts — appending further links (in
particular duplicates) to an activity that already links the skill leaves
`getSkillHours` unchanged. -/
theorem getSkillHours_duplicate_first_link (skillId : ℚ) (a : Activity)
    (extra : List SkillLink) (rest : List Activity) (logs : List TimeLog)
    (h : ∃ l ∈ a.skills, l.skillId = skillId) :
    getSkillHours skillId ({ a with skills := a.skills ++ extra } :: rest) logs =
      getSkillHours skillId (a :: rest) logs := by
  rw [getSkillHours_eq_sum, getSkillHours_eq_sum, List.map_cons, List.map_cons,
    List.sum_cons, List.sum_cons]
  congr 1
  obtain ⟨l0, hl0, hid⟩ := h
  have hne : a.skills.find? (fun s => decide (s.skillId = skillId)) ≠ none := by
    intro hnone
    exact List.find?_eq_none.mp hnone l0 hl0 (decide_eq_true hid)
  cases hf : a.skills.find? (fun s => decide (s.skillId = skillId)) with
  | none => exact absurd hf hne
  | some link => simp [skillContrib, List.find?_append, hf]

/-- Witness for C7's amended theorem: appending a duplicate link to skill
10 does not change the computed hours. -/
theorem getSkillHours_duplicate_first_link_witness :
    getSkillHours 10 [⟨1, "X", "course", "planned", [⟨10, 1 / 2⟩] ++ [⟨10, 1⟩]⟩]
      [⟨100, 1, "d", 4⟩] =
      getSkillHours 10 [⟨1, "X", "course", "planned", [⟨10, 1 / 2⟩]⟩] [⟨100, 1, "d", 4⟩] :=
  getSkillHours_duplicate_first_link 10 ⟨1, "X", "course", "planned", [⟨10, 1 / 2⟩]⟩
    [⟨10, 1⟩] [] [⟨100, 1, "d", 4⟩] ⟨⟨10, 1 / 2⟩, List.mem_singleton.mpr rfl, rfl⟩

/-- A JavaScript number where IEEE-754 special values are observable:
either a finite rational, +Infinity, -Infinity or NaN.  Negative zero is
identified with zero (it is indistinguishable in the computations
modelled here). -/
inductive JSNum where
  | num (q : ℚ)
  | inf
  | ninf
  | nan
deriving DecidableEq

/-- JavaScript `/` on `JSNum`: division by zero yields NaN (0/0) or a
signed infinity, never an error. -/
def jsDiv : JSNum → JSNum → JSNum
  | .nan, _ => .nan
  | _, .nan => .nan
  | .num a, .num b =>
      if b = 0 then (if a = 0 then .nan else if 0 < a then .inf else .ninf)
      else .num (a / b)
  | .num _, .inf => .num 0
  | .num _, .ninf => .num 0
  | .inf, .num b => if 0 ≤ b then .inf else .ninf
  | .ninf, .num b => if 0 ≤ b then .ninf else .inf
  | .inf, _ => .nan
  | .ninf, _ => .nan

/-- JavaScript `*` on `JSNum`. -/
def jsMul : JSNum → JSNum → JSNum
  | .nan, _ => .nan
  | _, .nan => .nan
  | .num a, .num b => .num (a * b)
  | .inf, .num b => if b = 0 then .nan else if 0 < b then .inf else .ninf
  | .num a, .inf => if a = 0 then .nan else if 0 < a then .inf else .ninf
  | .ninf, .num b => if b = 0 then .nan else if 0 < b then .ninf else .inf
  | .num a, .ninf => if a = 0 then .nan else if 0 < a then .ninf else .inf
  | .inf, .inf => .inf
  | .inf, .ninf => .ninf
  | .ninf, .inf => .ninf
  | .ninf, .ninf => .inf

/-- JavaScript `Math.min` on `JSNum`: NaN if either argument is NaN. -/
def jsMin : JSNum → JSNum → JSNum
  | .nan, _ => .nan
  | _, .nan => .nan
  | .num a, .num b => .num (min a b)
  | .ninf, _ => .ninf
  | _, .ninf => .ninf
  | .inf, x => x
  | x, .inf => x

/-- The computation `const progress = (level / skill.targetLevel) * 100` from the skills
tab of `App.tsx` (line 244); `level` is `calculateLevel`'s result, a
natural number. -/
def skillProgress (level : ℕ) (targetLevel : ℚ) : JSNum :=
  jsMul (jsDiv (.num level) (.num targetLevel)) (.num 100)

/-- The rendered width `Math.min(progress, 100)` (line 273). -/
def progressBarWidth (level : ℕ) (targetLevel : ℚ) : JSNum :=
  jsMin (skillProgress level targetLevel) (.num 100)

/-- C8: the division by `targetLevel` is not guarded.  At `targetLevel =
0` with no logged hours (level 0) the code computes `(0/0)*100 = NaN` and
the bar width is NaN — contradicting the requirement that the computation
must not divide by zero (the spec itself notes `targetLevel ≥ 1` holds by
construction, so the failing input needs invalid data).  With a positive
level the unguarded division yields Infinity, clamped to a width of 100.
For every `targetLevel ≥ 1` the width is the claimed
`min(100, 100·level/targetLevel)`. -/
theorem progressBarWidth_unguarded :
    progressBarWidth (calculateLevel 0) 0 = JSNum.nan ∧
    progressBarWidth 5 0 = JSNum.num 100 ∧
    ∀ (level : ℕ) (target : ℚ), 1 ≤ target →
      progressBarWidth level target = JSNum.num (min ((level : ℚ) / target * 100) 100) := by
  refine ⟨rfl, rfl, fun level target ht => ?_⟩
  have hne : target ≠ 0 := by intro h; rw [h] at ht; norm_num at ht
  simp [progressBarWidth, skillProgress, jsDiv, jsMul, jsMin, hne]

/-- Witness for C8's quantified part at level 2, target 3. -/
theorem progressBarWidth_unguarded_witness :
    (1 : ℚ) ≤ 3 ∧ progressBarWidth 2 3 = JSNum.num (min ((2 : ℚ) / 3 * 100) 100) :=
  ⟨by norm_num, progressBarWidth_unguarded.2.2 2 3 (by norm_num)⟩

/-- C5: `deleteSkill` filters out of every activity's skill-link list
exactly the links whose `skillId` equals the removed id, and never deletes
an activity: the activities list keeps its length, and the activity at
each position keeps its id and name (an activity whose link list becomes
empty remains present).  The transform is a pure function of the input
state, returning a new `AppState` value. -/
theorem deleteSkill_keeps_activities (id : ℚ) (s : AppState) :
    (deleteSkill id s).activities.length = s.activities.length ∧
    ∀ i (hi : i < (deleteSkill id s).activities.length) (hj : i < s.activities.length),
      ((deleteSkill id s).activities.get ⟨i, hi⟩).id = (s.activities.get ⟨i, hj⟩).id ∧
      ((deleteSkill id s).activities.get ⟨i, hi⟩).name = (s.activities.get ⟨i, hj⟩).name ∧
      ∀ l : SkillLink, l ∈ ((deleteSkill id s).activities.get ⟨i, hi⟩).skills ↔
        l ∈ (s.activities.get ⟨i, hj⟩).skills ∧ l.skillId ≠ id := by
  refine ⟨by simp [deleteSkill], fun i hi hj => ?_⟩
  simp [deleteSkill, List.get_eq_getElem, List.getElem_map, List.mem_filter]

/-- Witness for C5 on `exState`, removing skill 1: activity 2 survives
with its link to skill 1 gone. -/
theorem deleteSkill_keeps_activities_witness :
    ((deleteSkill 1 exState).activities.get ⟨0, by decide⟩).id =
      (exState.activities.get ⟨0, by decide⟩).id ∧
    ¬ (⟨1, 1⟩ : SkillLink) ∈ ((deleteSkill 1 exState).activities.get ⟨0, by decide⟩).skills :=
  ⟨((deleteSkill_keeps_activities 1 exState).2 0 (by decide) (by decide)).1,
    fun hmem =>
      (((((deleteSkill_keeps_activities 1 exState).2 0 (by decide) (by decide)).2.2
        ⟨1, 1⟩).mp hmem).2 rfl)⟩

/-- C6: `deleteActivity` removes exactly the time logs whose `activityId`
equals the removed id: a log survives iff it was present and references a
different activity, and the surviving logs are a sublist of the input
(each preserved unchanged, in order). -/
theorem deleteActivity_filters_logs (id : ℚ) (s : AppState) :
    (∀ t : TimeLog, t ∈ (deleteActivity id s).timeLogs ↔
      t ∈ s.timeLogs ∧ t.activityId ≠ id) ∧
    (deleteActivity id s).timeLogs.Sublist s.timeLogs := by
  refine ⟨fun t => ?_, List.filter_sublist _⟩
  simp [deleteActivity, List.mem_filter]

/-- Witness for C6 on `exState`, removing activity 2: its log disappears. -/
theorem deleteActivity_filters_logs_witness :
    ¬ (⟨3, 2, "2024-01-01", 4⟩ : TimeLog) ∈ (deleteActivity 2 exState).timeLogs :=
  fun hmem =>
    (((deleteActivity_filters_logs 2 exState).1 ⟨3, 2, "2024-01-01", 4⟩).mp hmem).2 rfl

/-- C9 (frame conditions): `deleteSkill` leaves `timeLogs` unchanged and
preserves every activity's id, name, type and status; `deleteActivity`
leaves `skills` unchanged; `deleteTimeLog` leaves `skills` and
`activities` unchanged and removes exactly the log with the matching id. -/
theorem delete_frame_conditions (id : ℚ) (s : AppState) :
    (deleteSkill id s).timeLogs = s.timeLogs ∧
    (deleteSkill id s).activities.length = s.activities.length ∧
    (∀ i (hi : i < (deleteSkill id s).activities.length) (hj : i < s.activities.length),
      ((deleteSkill id s).activities.get ⟨i, hi⟩).id = (s.activities.get ⟨i, hj⟩).id ∧
      ((deleteSkill id s).activities.get ⟨i, hi⟩).name = (s.activities.get ⟨i, hj⟩).name ∧
      ((deleteSkill id s).activities.get ⟨i, hi⟩).type = (s.activities.get ⟨i, hj⟩).type ∧
      ((deleteSkill id s).activities.get ⟨i, hi⟩).status = (s.activities.get ⟨i, hj⟩).status) ∧
    (deleteActivity id s).skills = s.skills ∧
    (deleteTimeLog id s).skills = s.skills ∧
    (deleteTimeLog id s).activities = s.activities ∧
    (∀ t : TimeLog, t ∈ (deleteTimeLog id s).timeLogs ↔ t ∈ s.timeLogs ∧ t.id ≠ id) := by
  refine ⟨rfl, by simp [deleteSkill], fun i hi hj => ?_, rfl, rfl, rfl, fun t => ?_⟩
  · simp [deleteSkill, List.get_eq_getElem, List.getElem_map]
  · simp [deleteTimeLog, List.mem_filter]

/-- Witness for C9 on `exState`: deleting skill 1 keeps the log list and
the activity's descriptive fields; deleting log 3 removes it and nothing
else. -/
theorem delete_frame_conditions_witness :
    (deleteSkill 1 exState).timeLogs = exState.timeLogs ∧
    ((deleteSkill 1 exState).activities.get ⟨0, by decide⟩).status =
      (exState.activities.get ⟨0, by decide⟩).status ∧
    (deleteTimeLog 3 exState).activities = exState.activities ∧
    ¬ (⟨3, 2, "2024-01-01", 4⟩ : TimeLog) ∈ (deleteTimeLog 3 exState).timeLogs :=
  ⟨(delete_frame_conditions 1 exState).1,
    (((delete_frame_conditions 1 exState).2.2.1 0 (by decide) (by decide)).2.2.2),
    (delete_frame_conditions 3 exState).2.2.2.2.2.1,
    fun hmem =>
      (((delete_frame_conditions 3 exState).2.2.2.2.2.2 ⟨3, 2, "2024-01-01", 4⟩).mp hmem).2 rfl⟩

/-- JavaScript `String.prototype.trim` as an explicit computation on the
character list (ASCII whitespace; sufficient for the strings considered
here): drop whitespace from both ends. -/
def jsTrim (s : String) : String :=
  ⟨(((s.data.dropWhile Char.isWhitespace).reverse.dropWhile Char.isWhitespace).reverse)⟩

/-- A candidate skill from the parsed, untrusted provider output
(`api/onboarding.ts`).  Fields hold arbitrary JS values; they are
modelled after the only observations the sanitizer makes of them:
`name` is `some s` iff the value is the string `s` (any non-string value
is `none` — the filter rejects it either way); `targetLevel` is the
result of the `Number(...)` coercion, with `none` for NaN (missing or
non-numeric); `priority` is `some q` iff the value is the number `q`
(only numbers can be strictly equal to 1, 2 or 3). -/
structure CandidateSkill where
  name : Option String
  targetLevel : Option ℚ
  priority : Option ℚ
deriving DecidableEq

/-- A candidate activity from the parsed provider output: `name` and
`type` as in `CandidateSkill`; `skillNames` is `some l` iff the value is
an array (`Array.isArray`), with its elements as strings — a non-string
element can never be in the set of accepted names, exactly like an
unknown string, so this loses no behaviour. -/
structure CandidateActivity where
  name : Option String
  type : Option String
  skillNames : Option (List String)
deriving DecidableEq

/-- An element of the sanitized `skills` output (`OnboardingSkill` in the
source). -/
structure OnboardingSkill where
  name : String
  targetLevel : ℚ
  priority : ℚ
deriving DecidableEq

/-- An element of the sanitized `activities` output
(`OnboardingActivity` in the source). -/
structure OnboardingActivity where
  name : String
  type : String
  skillNames : List String
deriving DecidableEq

/-- The filter `v && typeof v === 'string'`: passes exactly when the
value is a string and truthy, i.e. a non-empty string. -/
def nameOk (name : Option String) : Bool :=
  match name with
  | some s => decide (s ≠ "")
  | none => false

/-- The skill-normalization map of the sanitizer: trim the name, clamp
`Math.min(5, Math.max(1, Number(targetLevel) || 3))` (note `||` also
replaces the falsy 0), and keep the priority only when it is exactly 1,
2 or 3, else 2. -/
def sanitizeSkill (s : CandidateSkill) : OnboardingSkill :=
  { name := match s.name with | some n => jsTrim n | none => ""
    targetLevel := min 5 (max 1 (match s.targetLevel with
      | some q => if q = 0 then 3 else q
      | none => 3))
    priority := match s.priority with
      | some q => if q = 1 ∨ q = 2 ∨ q = 3 then q else 2
      | none => 2 }

/-- Function `validSkills` from the handler: filter by `nameOk`, then normalize. -/
def validSkills (skills : List CandidateSkill) : List OnboardingSkill :=
  (skills.filter fun s => nameOk s.name).map sanitizeSkill

/-- Constant `validTypes` from the handler. -/
def validTypes : List String := ["course", "book", "practice", "project", "article"]

/-- The activity-normalization map: trim the name, default the type to
"course" unless it is one of the five valid types, and keep only the
referenced skill names present in the accepted-name set (an absent or
non-array `skillNames` becomes `[]`). -/
def sanitizeActivity (accepted : List String) (a : CandidateActivity) : OnboardingActivity :=
  { name := match a.name with | some n => jsTrim n | none => ""
    type := match a.type with
      | some t => if validTypes.contains t then t else "course"
      | none => "course"
    skillNames := match a.skillNames with
      | some l => l.filter fun sn => accepted.contains sn
      | none => [] }

/-- Function `validActivities` from the handler: filter by `nameOk`, normalize,
then drop activities whose filtered skill-name list is empty. -/
def validActivities (accepted : List String) (acts : List CandidateActivity) :
    List OnboardingActivity :=
  ((acts.filter fun a => nameOk a.name).map (sanitizeActivity accepted)).filter
    fun a => decide (0 < a.skillNames.length)

/-- The whole sanitizer on a structurally valid candidate (both fields
already arrays): the accepted-name set is built from the normalized
skills and used to cross-reference the activities. -/
def sanitizePlan (skills : List CandidateSkill) (acts : List CandidateActivity) :
    List OnboardingSkill × List OnboardingActivity :=
  (validSkills skills,
    validActivities ((validSkills skills).map OnboardingSkill.name) acts)

/-- C3, counterexample: a skill named `" "` (whitespace only) passes the
truthiness filter but trims to the empty string, so a returned skill can
have an empty name (likewise a returned activity); and a numeric
`targetLevel` of 0 is falsy, so `Number(x) || 3` turns it into 3 where
the claim's formula `min(5, max(1, 0))` gives 1. -/
theorem sanitize_claim_counterexample :
    (∃ sk ∈ (sanitizePlan [⟨some " ", some 0, some 9⟩]
        [⟨some " ", some "junk", some ["", "Rust"]⟩]).1,
      sk.name = "" ∧ sk.targetLevel ≠ min 5 (max 1 (0 : ℚ))) ∧
    (∃ a ∈ (sanitizePlan [⟨some " ", some 0, some 9⟩]
        [⟨some " ", some "junk", some ["", "Rust"]⟩]).2, a.name = "") := by
  decide

/-- C3 as amended: every returned skill comes from a candidate whose name
was a non-empty string, carries that name trimmed (possibly empty after
trimming), a `targetLevel` equal to `min(5, max(1, v))` where `v` is the
coerced numeric value unless that is missing, non-numeric or zero (then
3) — hence in [1, 5] — and a priority that is the candidate's value when
that is exactly 1, 2 or 3, else 2; every returned activity comes from a
candidate whose name was a non-empty string, carries it trimmed, a type
from the five-member enumeration (the candidate's when valid, else
"course"), a skill-name list equal to its input list filtered to the
returned skills' names, and that list is non-empty; hence every returned
activity's skill-name references are a subset of the returned skills'
names. -/
theorem sanitize_normalization (skills : List CandidateSkill) (acts : List CandidateActivity) :
    (∀ sk ∈ (sanitizePlan skills acts).1, ∃ c ∈ skills, ∃ n : String,
      c.name = some n ∧ n ≠ "" ∧ sk.name = jsTrim n ∧
      sk.targetLevel = min 5 (max 1 (match c.targetLevel with
        | some q => if q = 0 then 3 else q
        | none => 3)) ∧
      1 ≤ sk.targetLevel ∧ sk.targetLevel ≤ 5 ∧
      (sk.priority = 1 ∨ sk.priority = 2 ∨ sk.priority = 3) ∧
      ((c.priority = some 1 ∨ c.priority = some 2 ∨ c.priority = some 3) →
        c.priority = some sk.priority) ∧
      (¬(c.priority = some 1 ∨ c.priority = some 2 ∨ c.priority = some 3) →
        sk.priority = 2)) ∧
    (∀ a ∈ (sanitizePlan skills acts).2, ∃ c ∈ acts, ∃ n : String,
      c.name = some n ∧ n ≠ "" ∧ a.name = jsTrim n ∧
      a.type ∈ validTypes ∧
      ((∃ t, c.type = some t ∧ t ∈ validTypes ∧ a.type = t) ∨ a.type = "course") ∧
      (∃ inl : List String, c.skillNames = some inl ∧
        a.skillNames = inl.filter fun sn =>
          ((sanitizePlan skills acts).1.map OnboardingSkill.name).contains sn) ∧
      a.skillNames ≠ []) ∧
    (∀ a ∈ (sanitizePlan skills acts).2, ∀ n ∈ a.skillNames,
      n ∈ (sanitizePlan skills acts).1.map OnboardingSkill.name) := by
  refine ⟨fun sk hsk => ?_, fun a ha => ?_, fun a ha n hn => ?_⟩
  · obtain ⟨c, hcf, rfl⟩ := List.mem_map.mp hsk
    obtain ⟨hcmem, hok⟩ := List.mem_filter.mp hcf
    cases hname : c.name with
    | none => rw [hname] at hok; simp [nameOk] at hok
    | some n =>
      rw [hname] at hok
      refine ⟨c, hcmem, n, hname, by simpa [nameOk] using hok,
        by simp [sanitizeSkill, hname], rfl, ?_, min_le_left _ _, ?_, ?_, ?_⟩
      · exact le_min (by norm_num) (le_max_left 1 _)
      · cases hp : c.priority with
        | none => simp [sanitizeSkill, hp]
        | some q =>
          by_cases hq : q = 1 ∨ q = 2 ∨ q = 3
          · simp only [sanitizeSkill, hp, if_pos hq]; exact hq
          · simp [sanitizeSkill, hp, if_neg hq]
      · intro hin
        cases hp : c.priority with
        | none => rw [hp] at hin; simp at hin
        | some q =>
          rw [hp] at hin
          have hq : q = 1 ∨ q = 2 ∨ q = 3 := by
            rcases hin with h | h | h <;> simp at h <;> simp [h]
          simp [sanitizeSkill, hp, if_pos hq]
      · intro hnot
        cases hp : c.priority with
        | none => simp [sanitizeSkill, hp]
        | some q =>
          have hq : ¬(q = 1 ∨ q = 2 ∨ q = 3) := by
            intro h
            exact hnot (by rcases h with h | h | h <;> simp [hp, h])
          simp [sanitizeSkill, hp, if_neg hq]
  · obtain ⟨hmem, hlen⟩ := List.mem_filter.mp ha
    obtain ⟨c, hcf, rfl⟩ := List.mem_map.mp hmem
    obtain ⟨hcmem, hok⟩ := List.mem_filter.mp hcf
    cases hname : c.name with
    | none => rw [hname] at hok; simp [nameOk] at hok
    | some n =>
      rw [hname] at hok
      have hlen' : 0 < (sanitizeActivity _ c).skillNames.length := of_decide_eq_true hlen
      refine ⟨c, hcmem, n, hname, by simpa [nameOk] using hok,
        by simp [sanitizeActivity, hname], ?_, ?_, ?_, ?_⟩
      · cases ht : c.type with
        | none =>
          have he : (sanitizeActivity ((validSkills skills).map OnboardingSkill.name) c).type
              = "course" := by simp [sanitizeActivity, ht]
          rw [he]; decide
        | some t =>
          cases hv : validTypes.contains t with
          | true =>
            have he : (sanitizeActivity ((validSkills skills).map OnboardingSkill.name) c).type
                = t := by simp only [sanitizeActivity, ht]; rw [hv]; simp
            rw [he]; simpa using hv
          | false =>
            have he : (sanitizeActivity ((validSkills skills).map OnboardingSkill.name) c).type
                = "course" := by simp only [sanitizeActivity, ht]; rw [hv]; simp
            rw [he]; decide
      · cases ht : c.type with
        | none => right; simp [sanitizeActivity, ht]
        | some t =>
          cases hv : validTypes.contains t with
          | true =>
            left
            refine ⟨t, rfl, by simpa using hv, ?_⟩
            simp only [sanitizeActivity, ht]; rw [hv]; simp
          | false =>
            right
            simp only [sanitizeActivity, ht]; rw [hv]; simp
      · cases hsn : c.skillNames with
        | none =>
          rw [sanitizeActivity] at hlen'
          rw [hsn] at hlen'
          simp at hlen'
        | some inl => exact ⟨inl, rfl, by simp [sanitizePlan, sanitizeActivity, hsn]⟩
      · intro hempty
        rw [hempty] at hlen'
        simp at hlen'
  · obtain ⟨hmem, _⟩ := List.mem_filter.mp ha
    obtain ⟨c, hcf, rfl⟩ := List.mem_map.mp hmem
    rw [sanitizeActivity] at hn
    cases hsn : c.skillNames with
    | none => rw [hsn] at hn; simp at hn
    | some inl =>
      rw [hsn] at hn
      have := (List.mem_filter.mp hn).2
      simpa using this

/-- Witness for C3's amended theorem on a well-formed candidate: the
skill "Python" with out-of-range targetLevel 7 and priority 9 is clamped
to (5, 2), and the activity keeps exactly the known reference. -/
theorem sanitize_normalization_witness :
    ∀ n ∈ (sanitizePlan [⟨some "Python", some 7, some 9⟩]
        [⟨some "Read", some "book", some ["Python", "Rust"]⟩]).2.foldr
        (fun a r => a.skillNames ++ r) [],
      n ∈ ((sanitizePlan [⟨some "Python", some 7, some 9⟩]
        [⟨some "Read", some "book", some ["Python", "Rust"]⟩]).1.map OnboardingSkill.name) := by
  intro n hn
  have hmain := (sanitize_normalization [⟨some "Python", some 7, some 9⟩]
    [⟨some "Read", some "book", some ["Python", "Rust"]⟩]).2.2
  revert hn
  have : (sanitizePlan [⟨some "Python", some 7, some 9⟩]
      [⟨some "Read", some "book", some ["Python", "Rust"]⟩]).2 =
      [⟨"Read", "book", ["Python"]⟩] := by decide
  rw [this] at hmain ⊢
  intro hn
  exact hmain ⟨"Read", "book", ["Python"]⟩ (by simp) n (by simpa using hn)
